import Mathlib

/-!
fzx: engine reader surface and terminal front end.

Shallow embedding of `src/fzx/fzx.hpp` (struct `Fzx`, `Result`, `Results`) and of
`src/fzx/tui/term_app.cpp` (`TermApp::processInput`, `processTTY`, `redraw`).

Conventions.
* A byte is a natural number, a string view is a list of bytes.
* `size_t` is 64 bits wide: arithmetic that can wrap is written with `% sizeMod`.
* A float score is carried as its binary32 bit pattern; no arithmetic is done on it.
* A C++ exception is an explicit outcome: a fallible operation returns `Except Exn _`,
  and the allocator is an oracle listing the outcome of each successive allocation attempt.
-/

namespace fzx

/-! ## Basic types -/

abbrev Byte := Nat
abbrev Bytes := List Byte

/-- Bit pattern of a binary32 score. -/
abbrev Score := Nat

/-- Modulus of `size_t` arithmetic. -/
def sizeMod : Nat := 2 ^ 64

/-- Exceptions that the modelled code can raise. -/
inductive Exn
  | badAlloc
  deriving DecidableEq, Repr

/-- Outcomes of successive allocation attempts, `true` meaning the allocation succeeded.
Once the list is used up every further attempt succeeds. -/
abbrev Alloc := List Bool

/-- Outcome of the next allocation attempt and the remaining oracle. -/
def Alloc.next : Alloc → Bool × Alloc
  | [] => (true, [])
  | b :: rest => (b, rest)

/-! ## Engine data model (`fzx.hpp`) -/

/-- Modelled from the spec: `Match` (declared in `fzx/match.hpp`, not available) is the pair
`(item index: u32, score: f32)`. -/
structure Match where
  mIndex : Nat
  mScore : Score
  deriving DecidableEq, Repr

/-- `struct Result` of `fzx.hpp`: a line and a score, nothing else. -/
structure Result where
  mLine : Bytes
  mScore : Score
  deriving DecidableEq, Repr

/-- `struct Results` of `fzx.hpp`. -/
structure Results where
  mResults : List Match
  mItemsTick : Nat
  mQueryTick : Nat
  deriving DecidableEq, Repr

/-- Modelled from the spec: the item store `ItemList` (`fzx/item_list.hpp`, not available).
Items are appended to a staging sequence by `push`; `commit` publishes the staging size as the
committed size. -/
structure ItemList where
  mItems : List Bytes
  mCommitted : Nat
  deriving DecidableEq, Repr

/-- Modelled from the spec: `push(bytes)` appends to staging; an allocation failure fails the
call and leaves the staging size unchanged. -/
def ItemList.push (l : ItemList) (s : Bytes) (allocOk : Bool) : Except Exn ItemList :=
  if allocOk then .ok { l with mItems := l.mItems ++ [s] } else .error .badAlloc

/-- Modelled from the spec: `commit()` publishes the staging size as committed size. -/
def ItemList.commit (l : ItemList) : ItemList :=
  { l with mCommitted := l.mItems.length }

/-- Modelled from the spec: `size()` is the committed size (acquire load). -/
def ItemList.size (l : ItemList) : Nat := l.mCommitted

/-- Modelled from the spec: `last_commit_size()` is the committed size as seen by the
producer (plain load of the same counter). -/
def ItemList.lastCommitSize (l : ItemList) : Nat := l.mCommitted

/-- Modelled from the spec: `at(i)` is item `i`. -/
def ItemList.at (l : ItemList) (i : Nat) : Bytes := l.mItems.getD i []

/-- Modelled from the spec: the versioned hand-off `TxValue<T>` (`fzx/tx_value.hpp`, not
available). The reader owns `mRead`; a value stored by the writer waits in `mUnread` until the
reader loads it; `mWriteTick` counts the stores. -/
structure TxValue (α : Type) where
  mRead : α
  mUnread : Option α
  mWriteTick : Nat

def TxValue.readBuffer {α : Type} (t : TxValue α) : α := t.mRead

def TxValue.writeTick {α : Type} (t : TxValue α) : Nat := t.mWriteTick

/-- Writer side: publish a new value and advance the write tick. -/
def TxValue.store {α : Type} (t : TxValue α) (v : α) : TxValue α :=
  { t with mUnread := some v, mWriteTick := t.mWriteTick + 1 }

/-- Reader side: take the latest published value if there is one; the flag tells whether the
reader-visible value changed. -/
def TxValue.load {α : Type} (t : TxValue α) : TxValue α × Bool :=
  match t.mUnread with
  | some v => ({ t with mRead := v, mUnread := none }, true)
  | none => (t, false)

/-- Events consumed by the coordinator thread. -/
structure Events where
  mCommit : Bool
  mQuery : Bool
  mStop : Bool
  deriving DecidableEq, Repr

/-- `struct Fzx` of `fzx.hpp` (the thread handle and the line scanner of the engine play no
part in the operations embedded here). -/
structure Fzx where
  mItems : ItemList
  mQuery : TxValue Bytes
  mResults : TxValue Results
  mEventFd : Bool
  mEvents : Events

/-- `Fzx::pushItem`: `mItems.push(s)`; a failure of the push is the failure of the call. -/
def Fzx.pushItem (f : Fzx) (s : Bytes) (allocOk : Bool) : Except Exn Fzx :=
  match f.mItems.push s allocOk with
  | .ok items => .ok { f with mItems := items }
  | .error e => .error e

/-- Modelled from the spec: `Fzx::commitItems() noexcept` (body in `fzx.cpp`, not available)
commits the item store and posts the commit event. -/
def Fzx.commitItems (f : Fzx) : Fzx :=
  { f with mItems := f.mItems.commit, mEvents := { f.mEvents with mCommit := true } }

/-- Modelled from the spec: `Fzx::setQuery(std::string) noexcept` (body not available) stores
the query, which advances the query tick, and posts the query event. -/
def Fzx.setQuery (f : Fzx) (query : Bytes) : Fzx :=
  { f with mQuery := f.mQuery.store query, mEvents := { f.mEvents with mQuery := true } }

/-- Modelled from the spec: `Fzx::loadResults() noexcept` (body not available) drains the
wake-up channel and swaps in the latest published snapshot; true iff the snapshot changed. -/
def Fzx.loadResults (f : Fzx) : Fzx × Bool :=
  let r := f.mResults.load
  ({ f with mResults := r.1, mEventFd := false }, r.2)

def Fzx.itemsSize (f : Fzx) : Nat := f.mItems.size

def Fzx.getItem (f : Fzx) (i : Nat) : Bytes := f.mItems.at i

/-- `Fzx::resultsSize`. -/
def Fzx.resultsSize (f : Fzx) : Nat := f.mResults.readBuffer.mResults.length

/-- The match ranked `i` in the reader-visible snapshot. -/
def Fzx.matchAt (f : Fzx) (i : Nat) : Match :=
  f.mResults.readBuffer.mResults.getD i ⟨0, 0⟩

/-- Modelled from the spec: `Fzx::getResult` (body in `fzx.cpp`, not available) returns the
line bytes and the score of the match ranked `i`, in the two members that `struct Result`
declares. -/
def Fzx.getResult (f : Fzx) (i : Nat) : Result :=
  { mLine := f.mItems.at (f.matchAt i).mIndex, mScore := (f.matchAt i).mScore }

/-- `Fzx::processing`. -/
def Fzx.processing (f : Fzx) : Bool :=
  let res := f.mResults.readBuffer
  res.mItemsTick != f.mItems.lastCommitSize || res.mQueryTick != f.mQuery.writeTick

/-- Calls of the engine surface that the claims on failure speak about. -/
inductive Call
  | pushItem (s : Bytes)
  | commitItems
  | setQuery (query : Bytes)
  | loadResults

/-- Runs one call; a `noexcept` operation always completes, `pushItem` completes or raises
according to the allocator. The flag of the result is the return value of `loadResults`
(false for the other calls, which return nothing). -/
def Fzx.run (f : Fzx) (allocOk : Bool) : Call → Except Exn (Fzx × Bool)
  | .pushItem s =>
    match f.pushItem s allocOk with
    | .ok g => .ok (g, false)
    | .error e => .error e
  | .commitItems => .ok (f.commitItems, false)
  | .setQuery q => .ok (f.setQuery q, false)
  | .loadResults => .ok f.loadResults

/-! ## Terminal front end: collaborators of `TermApp` -/

/-- Limit of the input buffer, `kMaxInputBufferSize`. -/
def kMaxInputBufferSize : Nat := 0x40000

/-- Modelled from the spec: the external line scanner (`fzx/line_scanner.hpp`, not available).
It is stateful: `mBuf` holds the bytes consumed since the last newline. -/
structure LineScanner where
  mBuf : Bytes
  deriving DecidableEq, Repr

/-- Modelled from the spec: on a line ending in carriage return and newline the trailing
carriage return is stripped. -/
def stripCR (line : Bytes) : Bytes :=
  if line.getLast? = some 13 then line.dropLast else line

/-- Modelled from the spec: `feed` consumes a chunk byte by byte, splits on newline (10) and
emits each complete line, without the newline, through the push callback; it returns the number
of items produced. The callback acts on a state `σ` and may raise; the line is handed to the
callback before the buffer is cleared, so a raise leaves the scanner as it was at the call. -/
def LineScanner.feedFrom {σ : Type} (push : Bytes → σ → σ × Option Exn) :
    Bytes → LineScanner → σ → Nat → (LineScanner × σ) × Except Exn Nat
  | [], sc, w, n => ((sc, w), .ok n)
  | b :: rest, sc, w, n =>
    if b = 10 then
      match push (stripCR sc.mBuf) w with
      | (w1, none) => LineScanner.feedFrom push rest ⟨[]⟩ w1 (n + 1)
      | (w1, some e) => ((sc, w1), .error e)
    else LineScanner.feedFrom push rest ⟨sc.mBuf ++ [b]⟩ w n

def LineScanner.feed {σ : Type} (sc : LineScanner) (chunk : Bytes)
    (push : Bytes → σ → σ × Option Exn) (w : σ) : (LineScanner × σ) × Except Exn Nat :=
  LineScanner.feedFrom push chunk sc w 0

/-- Modelled from the spec: `finalize` flushes any remaining unterminated bytes as one final
item and returns whether an item was emitted. -/
def LineScanner.finalize {σ : Type} (sc : LineScanner)
    (push : Bytes → σ → σ × Option Exn) (w : σ) : (LineScanner × σ) × Except Exn Bool :=
  if sc.mBuf = [] then ((sc, w), .ok false)
  else
    match push sc.mBuf w with
    | (w1, none) => ((⟨[]⟩, w1), .ok true)
    | (w1, some e) => ((sc, w1), .error e)

abbrev Color := Nat

/-- Argument of a formatted `put`. -/
inductive Arg
  | num (n : Nat)
  | str (s : Bytes)
  deriving DecidableEq, Repr

/-- One output call recorded by the terminal, with the colours in effect at the call
(`none` is the colour of the terminal after `clearColor`). -/
inductive Cell
  | put (fmt : String) (args : List Arg) (fg bg : Option Color)
  | putc (b : Byte) (fg bg : Option Color)
  deriving DecidableEq, Repr

/-- Modelled from the spec: the terminal (`fzx/tui/tty.hpp`, not available) is an external
collaborator that the spec leaves opaque. It is embedded as a recorder: it keeps its size, the
colours set last, the calls buffered since the last flush and the calls already flushed to the
screen. -/
structure TTY where
  mWidth : Nat
  mHeight : Nat
  mFg : Option Color
  mBg : Option Color
  mOut : List Cell
  mScreen : List Cell
  deriving DecidableEq, Repr

def TTY.width (t : TTY) : Nat := t.mWidth

def TTY.height (t : TTY) : Nat := t.mHeight

def TTY.setFg (t : TTY) (c : Color) : TTY := { t with mFg := some c }

def TTY.setBg (t : TTY) (c : Color) : TTY := { t with mBg := some c }

def TTY.clearColor (t : TTY) : TTY := { t with mFg := none, mBg := none }

def TTY.put (t : TTY) (fmt : String) (args : List Arg) : TTY :=
  { t with mOut := t.mOut ++ [Cell.put fmt args t.mFg t.mBg] }

def TTY.putc (t : TTY) (b : Byte) : TTY :=
  { t with mOut := t.mOut ++ [Cell.putc b t.mFg t.mBg] }

def TTY.flush (t : TTY) : TTY :=
  { t with mScreen := t.mScreen ++ t.mOut, mOut := [] }

/-- Colours of the front end (`mPalette`). -/
structure Palette where
  mDefaultFg : Color
  mCursorFg : Color
  mCursorBg : Color
  mMatchFg : Color
  mPromptFg : Color
  mPromptBg : Color
  deriving DecidableEq, Repr

/-- Keys delivered by the terminal; the named constants of `fzx/tui/key.hpp` that
`processTTY` compares against, and every other key by its code. -/
inductive Key
  | kEnter
  | kCtrlU
  | kCtrlC
  | kEscape
  | kCtrlP
  | kCtrlN
  | kTab
  | other (code : Nat)
  deriving DecidableEq, Repr

/-- State of the input line editor `mLine`. -/
structure Line where
  mLine : Bytes
  mCursor : Nat
  deriving DecidableEq, Repr

def Line.line (l : Line) : Bytes := l.mLine

/-- Functions that `term_app.cpp` calls and whose code is not available; they are parameters
of the embedding. `lineHandle` is `mLine.handle(key)` (the new editor state when the key was
handled), `lineClear` is `mLine.clear()`, `query` is `mFzx.query()` (`none` for a null pointer)
and `matchPositions` is `Query::matchPositions`, which rewrites the vector it is given. -/
structure Ext where
  lineHandle : Key → Line → Option Line
  lineClear : Line → Line
  query : Fzx → Option Bytes
  matchPositions : Bytes → Bytes → List Bool → List Bool

inductive Status
  | Running
  | ExitSuccess
  | ExitFailure
  deriving DecidableEq, Repr

/-- `struct TermApp`, the members used by `term_app.cpp`. -/
structure TermApp where
  mFzx : Fzx
  mInputOpen : Bool
  mInputBuffer : Bytes
  mLineScanner : LineScanner
  mTTY : TTY
  mLine : Line
  mCursor : Nat
  mSelection : Finset Nat
  mPalette : Palette
  mPrompt : String
  mStatus : Status

/-- The member `mIndex` that `term_app.cpp` reads from the value of `getResult(i)`. The
`struct Result` of `fzx.hpp` does not declare it; the front end is embedded with the index of
the match ranked `i`. -/
def Fzx.resultIndex (f : Fzx) (i : Nat) : Nat := (f.matchAt i).mIndex

/-- `std::clamp(v, lo, hi)`. -/
def clamp (v lo hi : Nat) : Nat :=
  if v < lo then lo else if hi < v then hi else v

/-! ## `TermApp::redraw` -/

/-- Inner loop of `redraw` over the bytes of `sub`, starting at byte index `i`. -/
def drawChars (pal : Palette) (iscursor : Bool) (positions : List Bool) :
    Nat → Bytes → Bool → TTY → TTY
  | _, [], _, t => t
  | i, b :: rest, highlighted, t =>
    let s : Bool × TTY :=
      if decide (i < positions.length) && positions.getD i false then
        if !highlighted then (true, t.setFg pal.mMatchFg) else (highlighted, t)
      else
        if highlighted then
          (false, if iscursor then t.setFg pal.mCursorFg else t.setFg pal.mDefaultFg)
        else (highlighted, t)
    drawChars pal iscursor positions (i + 1) rest s.1 (s.2.putc b)

/-- The vector `positions` used for the row of `item`. -/
def rowPositions (ext : Ext) (query : Option Bytes) (item : Bytes) (positions : List Bool) :
    List Bool :=
  match query with
  | some q => ext.matchPositions q item positions
  | none => []

/-- Body of the row loop of `redraw` for row `i`; the state is the terminal and the vector
`positions`, which is reused from row to row. -/
def drawRow (ext : Ext) (app : TermApp) (cursor maxHeight itemWidth items : Nat)
    (query : Option Bytes) (i : Nat) (s : TTY × List Bool) : TTY × List Bool :=
  let t := s.1.setFg app.mPalette.mDefaultFg
  let t := t.put "\x1B[\x7b\x7d;0H\x1B[K" [Arg.num (maxHeight - i)]
  if i < items then
    let item := (app.mFzx.getResult i).mLine
    let iscursor := decide (cursor = i)
    let t := if iscursor then (t.setFg app.mPalette.mCursorFg).setBg app.mPalette.mCursorBg else t
    let t := t.put "  " [Arg.num (maxHeight - i)]
    let t :=
      if app.mFzx.resultIndex i ∈ app.mSelection then t.put "•" [Arg.num (maxHeight - i)]
      else t.put " " [Arg.num (maxHeight - i)]
    let positions := rowPositions ext query item s.2
    let sub := item.take itemWidth
    let t := drawChars app.mPalette iscursor positions 0 sub false t
    let t := if iscursor then t.clearColor else t
    (t, positions)
  else (t, s.2)

/-- Row loop of `redraw`: `n` rows starting at row `i`. -/
def drawRows (ext : Ext) (app : TermApp) (cursor maxHeight itemWidth items : Nat)
    (query : Option Bytes) : Nat → Nat → TTY × List Bool → TTY × List Bool
  | 0, _, s => s
  | n + 1, i, s =>
    drawRows ext app cursor maxHeight itemWidth items query n (i + 1)
      (drawRow ext app cursor maxHeight itemWidth items query i s)

/-- `TermApp::redraw`. -/
def TermApp.redraw (ext : Ext) (app : TermApp) : TermApp :=
  if app.mTTY.height < 4 || app.mTTY.width < 4 then app
  else
    let maxHeight := app.mTTY.height - 2
    let itemWidth := app.mTTY.width - 2
    let items := app.mFzx.resultsSize
    let cursor := clamp app.mCursor 0 ((items + sizeMod - 1) % sizeMod)
    let query := ext.query app.mFzx
    let t := (drawRows ext app cursor maxHeight itemWidth items query maxHeight 0 (app.mTTY, [])).1
    let t := t.setFg app.mPalette.mDefaultFg
    let t := t.put "\x1B[\x7b\x7d;0H\x1B[K\x7b\x7d/\x7b\x7d"
      [Arg.num (app.mTTY.height - 1), Arg.num app.mFzx.resultsSize, Arg.num app.mFzx.itemsSize]
    let t := t.put "\x1B[\x7b\x7d;0H\x1B[K" [Arg.num app.mTTY.height]
    let t := t.setFg app.mPalette.mPromptFg
    let t := t.setBg app.mPalette.mPromptBg
    let t := t.put app.mPrompt []
    let t := t.clearColor
    let t := t.put " \x7b\x7d" [Arg.str app.mLine.line]
    { app with mCursor := cursor, mTTY := t.flush }

/-! ## `TermApp::processInput` -/

/-- Calls that `processInput` completes, in order. -/
inductive Effect
  | push (item : Bytes)
  | commit
  | close
  | resize (size : Nat)
  | clear
  | redraw
  | perror
  deriving DecidableEq, Repr

/-- What the push callback of `processInput` acts on: the engine, the allocator and the record
of completed calls. -/
structure Sink where
  fzx : Fzx
  alloc : Alloc
  trace : List Effect

/-- The push callback of `processInput`. -/
def pushItemCb (item : Bytes) (w : Sink) : Sink × Option Exn :=
  match w.fzx.pushItem item w.alloc.next.1 with
  | .ok g => ({ fzx := g, alloc := w.alloc.next.2, trace := w.trace ++ [Effect.push item] }, none)
  | .error e => ({ w with alloc := w.alloc.next.2 }, some e)

/-- Outcome of `read(fd, buf, size)`: bytes available on the descriptor (none at end of
input), or a failure. -/
inductive ReadOutcome
  | data (bytes : Bytes)
  | fail
  deriving DecidableEq, Repr

/-- Return value of `read`: at most `size` bytes are transferred, `-1` on failure. -/
def ReadOutcome.len (size : Nat) : ReadOutcome → Int
  | .data bytes => ((bytes.take size).length : Nat)
  | .fail => -1

/-- Contents of the buffer after `read`: the transferred bytes overwrite its beginning. -/
def ReadOutcome.store (buf : Bytes) : ReadOutcome → Bytes
  | .data bytes => bytes.take buf.length ++ buf.drop (bytes.take buf.length).length
  | .fail => buf

/-- State of a run of `processInput`: the application, the allocator, the completed calls and
the exception in flight, if any. -/
structure Run where
  app : TermApp
  alloc : Alloc
  trace : List Effect
  raised : Option Exn

/-- Branch `len == 0` of `processInput` (lines 36 to 41). -/
def TermApp.endOfInput (ext : Ext) (app : TermApp) (alloc : Alloc) (trace : List Effect) : Run :=
  let app := { app with mInputOpen := false }
  let trace := trace ++ [Effect.close]
  match app.mLineScanner.finalize pushItemCb ⟨app.mFzx, alloc, trace⟩ with
  | ((sc, w), .error e) =>
    { app := { app with mLineScanner := sc, mFzx := w.fzx }, alloc := w.alloc, trace := w.trace,
      raised := some e }
  | ((sc, w), .ok emitted) =>
    let fzx := if emitted then w.fzx.commitItems else w.fzx
    let trace := if emitted then w.trace ++ [Effect.commit] else w.trace
    let app := { app with mLineScanner := sc, mFzx := fzx, mInputBuffer := [] }
    { app := app.redraw ext, alloc := w.alloc, trace := trace ++ [Effect.clear, Effect.redraw],
      raised := none }

/-- Handler `catch (...)` of `processInput` (lines 48 to 53). -/
def TermApp.catchAll (ext : Ext) (app : TermApp) (alloc : Alloc) (trace : List Effect) : Run :=
  let app := { app with mInputOpen := false }
  let trace := trace ++ [Effect.close]
  match app.mLineScanner.finalize pushItemCb ⟨app.mFzx, alloc, trace⟩ with
  | ((sc, w), .error e) =>
    { app := { app with mLineScanner := sc, mFzx := w.fzx }, alloc := w.alloc, trace := w.trace,
      raised := some e }
  | ((sc, w), .ok emitted) =>
    let fzx := if emitted then w.fzx.commitItems else w.fzx
    let trace := if emitted then w.trace ++ [Effect.commit] else w.trace
    let app := { app with mLineScanner := sc, mFzx := fzx, mInputBuffer := [] }
    { app := app.redraw ext, alloc := w.alloc, trace := trace ++ [Effect.clear, Effect.redraw],
      raised := none }

/-- Branch `len > 0` of `processInput` (lines 28 to 34), after the read stored its bytes. -/
def TermApp.dataRead (ext : Ext) (app : TermApp) (len : Int) (alloc : Alloc) : Run :=
  match app.mLineScanner.feed (app.mInputBuffer.take len.toNat) pushItemCb ⟨app.mFzx, alloc, []⟩ with
  | ((sc, w), .error e) =>
    { app := { app with mLineScanner := sc, mFzx := w.fzx }, alloc := w.alloc, trace := w.trace,
      raised := some e }
  | ((sc, w), .ok count) =>
    let fzx := if count > 0 then w.fzx.commitItems else w.fzx
    let trace := if count > 0 then w.trace ++ [Effect.commit] else w.trace
    let app := { app with mLineScanner := sc, mFzx := fzx }
    if app.mInputBuffer.length = len.toNat ∧ app.mInputBuffer.length < kMaxInputBufferSize then
      if w.alloc.next.1 then
        let size := app.mInputBuffer.length * 2
        let app :=
          { app with mInputBuffer := app.mInputBuffer ++ List.replicate (size - app.mInputBuffer.length) 0 }
        { app := app.redraw ext, alloc := w.alloc.next.2,
          trace := trace ++ [Effect.resize size, Effect.redraw], raised := none }
      else
        { app := app, alloc := w.alloc.next.2, trace := trace, raised := some Exn.badAlloc }
    else
      { app := app.redraw ext, alloc := w.alloc, trace := trace ++ [Effect.redraw], raised := none }

/-- The `try` block of `processInput` (lines 26 to 45). -/
def TermApp.tryBlock (ext : Ext) (app : TermApp) (rd : ReadOutcome) (alloc : Alloc) : Run :=
  let len := rd.len app.mInputBuffer.length
  let app := { app with mInputBuffer := rd.store app.mInputBuffer }
  if len > 0 then app.dataRead ext len alloc
  else if len = 0 then app.endOfInput ext alloc []
  else if len = -1 then { app := app, alloc := alloc, trace := [Effect.perror], raised := none }
  else { app := app, alloc := alloc, trace := [], raised := none }

/-- `TermApp::processInput`: the `try` block, and the handler when the block raised. A field
`raised` that is set in the result is an exception that leaves `processInput`. -/
def TermApp.processInput (ext : Ext) (app : TermApp) (rd : ReadOutcome) (alloc : Alloc) : Run :=
  let r := app.tryBlock ext rd alloc
  match r.raised with
  | some _ => r.app.catchAll ext r.alloc r.trace
  | none => r

/-- `TermApp::quit`. -/
def TermApp.quit (app : TermApp) (success : Bool) : TermApp :=
  if success then { app with mStatus := Status.ExitSuccess }
  else { app with mStatus := Status.ExitFailure }

/-- Toggle of `index` in the selection (lines 84 to 88). -/
def toggle (sel : Finset Nat) (index : Nat) : Finset Nat :=
  if index ∈ sel then sel.erase index else insert index sel

/-- Branch `kTab` of `processTTY` (lines 82 to 90). The index of a match is a 32-bit value,
so its copy into `const uint32_t index` keeps it. -/
def TermApp.tabKey (app : TermApp) : TermApp :=
  if app.mCursor < app.mFzx.resultsSize then
    let index := app.mFzx.resultIndex app.mCursor
    { app with mSelection := toggle app.mSelection index, mCursor := (app.mCursor + 1) % sizeMod }
  else app

/-- State of the key loop of `processTTY`: the application, the flag `updateQuery`, and
whether the function returned from inside the loop. -/
structure KeyLoop where
  app : TermApp
  updateQuery : Bool
  returned : Bool

/-- One iteration of the key loop (lines 61 to 91) for the key `key`. -/
def TermApp.keyStep (ext : Ext) (app : TermApp) (updateQuery : Bool) (key : Key) : KeyLoop :=
  match ext.lineHandle key app.mLine with
  | some l => ⟨{ app with mLine := l }, true, false⟩
  | none =>
    if key = Key.kEnter then ⟨app.quit true, updateQuery, true⟩
    else if key = Key.kCtrlU then ⟨{ app with mLine := ext.lineClear app.mLine }, true, false⟩
    else if key = Key.kCtrlC ∨ key = Key.kEscape then ⟨app.quit false, updateQuery, true⟩
    else if key = Key.kCtrlP then
      ⟨{ app with mCursor := (app.mCursor + 1) % sizeMod }, updateQuery, false⟩
    else if key = Key.kCtrlN then
      ⟨if app.mCursor > 0 then { app with mCursor := app.mCursor - 1 } else app, updateQuery, false⟩
    else if key = Key.kTab then ⟨app.tabKey, updateQuery, false⟩
    else ⟨app, updateQuery, false⟩

/-- The key loop of `processTTY` over the keys that the terminal delivers. -/
def TermApp.keyLoop (ext : Ext) : List Key → TermApp → Bool → KeyLoop
  | [], app, updateQuery => ⟨app, updateQuery, false⟩
  | key :: rest, app, updateQuery =>
    let r := app.keyStep ext updateQuery key
    if r.returned then r else TermApp.keyLoop ext rest r.app r.updateQuery

/-- `TermApp::processTTY`. -/
def TermApp.processTTY (ext : Ext) (app : TermApp) (keys : List Key) : TermApp :=
  let r := TermApp.keyLoop ext keys app false
  if r.returned then r.app
  else
    let app := if r.updateQuery then { r.app with mFzx := r.app.mFzx.setQuery r.app.mLine.line } else r.app
    app.redraw ext

/-! ## Colour expected at a byte of a row -/

/-- External functions for concrete runs: a line editor that handles no key and an engine
without active query. -/
def Ext.idle : Ext :=
  { lineHandle := fun _ _ => none
    lineClear := fun _ => ⟨[], 0⟩
    query := fun _ => none
    matchPositions := fun _ _ positions => positions }

/-- An engine holding `items`, all committed, with the snapshot `results` loaded. -/
def Fzx.sample (items : List Bytes) (results : List Match) : Fzx :=
  { mItems := ⟨items, items.length⟩
    mQuery := ⟨[], none, 0⟩
    mResults := ⟨⟨results, items.length, 0⟩, none, 1⟩
    mEventFd := false
    mEvents := ⟨false, false, false⟩ }

/-- Two equal items `a` and their identity ranking. -/
def Fzx.twins : Fzx := Fzx.sample [[97], [97]] [⟨0, 0⟩, ⟨1, 0⟩]

/-- A front end over the engine `f` with an input buffer `buf`, on an 80 by 24 terminal. -/
def TermApp.sample (f : Fzx) (buf : Bytes) : TermApp :=
  { mFzx := f
    mInputOpen := true
    mInputBuffer := buf
    mLineScanner := ⟨[]⟩
    mTTY := ⟨80, 24, none, none, [], []⟩
    mLine := ⟨[], 0⟩
    mCursor := 0
    mSelection := ∅
    mPalette := ⟨7, 3, 8, 2, 6, 0⟩
    mPrompt := ">"
    mStatus := Status.Running }

/-! ## Engine surface: theorems -/

/-- C1: `processing()` is true exactly when the items tick of the reader-visible snapshot
differs from the committed size of the item store or its query tick differs from the write tick
of the query channel, and false exactly when both ticks equal the live values. -/
theorem processing_iff_tick_differs (f : Fzx) :
    (f.processing = true ↔
      (f.mResults.readBuffer.mItemsTick ≠ f.mItems.size ∨
        f.mResults.readBuffer.mQueryTick ≠ f.mQuery.writeTick)) ∧
    (f.processing = false ↔
      (f.mResults.readBuffer.mItemsTick = f.mItems.size ∧
        f.mResults.readBuffer.mQueryTick = f.mQuery.writeTick)) := by
  constructor
  · simp [Fzx.processing, ItemList.size, ItemList.lastCommitSize]
  · simp [Fzx.processing, ItemList.size, ItemList.lastCommitSize]

/-- C2: the value of `getResult` carries no original index. In the engine holding two equal
items, ranks 0 and 1 give the same `Result` although their matches have different indices, so
no function of the returned `Result` yields the original index of every ranked result. -/
theorem getResult_index_not_recoverable :
    Fzx.twins.resultsSize = 2 ∧
    Fzx.twins.getResult 0 = Fzx.twins.getResult 1 ∧
    (Fzx.twins.matchAt 0).mIndex ≠ (Fzx.twins.matchAt 1).mIndex ∧
    ¬ ∃ recover : Result → Nat,
        ∀ (f : Fzx) (i : Nat), i < f.resultsSize → recover (f.getResult i) = (f.matchAt i).mIndex := by
  refine ⟨by decide, by decide, by decide, ?_⟩
  rintro ⟨recover, h⟩
  have h0 := h Fzx.twins 0 (by decide)
  have h1 := h Fzx.twins 1 (by decide)
  have e : Fzx.twins.getResult 0 = Fzx.twins.getResult 1 := by decide
  rw [e] at h0
  have : (Fzx.twins.matchAt 0).mIndex = (Fzx.twins.matchAt 1).mIndex := h0.symm.trans h1
  exact absurd this (by decide)

/-- C3: `setQuery`, `commitItems` and `loadResults` complete for every input and every engine
state, and `pushItem` raises exactly the failure of the push on the item store, which does
occur (a failed allocation). -/
theorem only_pushItem_can_fail :
    (∀ (f : Fzx) (allocOk : Bool) (q : Bytes),
      f.run allocOk (Call.setQuery q) = Except.ok (f.setQuery q, false)) ∧
    (∀ (f : Fzx) (allocOk : Bool),
      f.run allocOk Call.commitItems = Except.ok (f.commitItems, false)) ∧
    (∀ (f : Fzx) (allocOk : Bool),
      f.run allocOk Call.loadResults = Except.ok f.loadResults) ∧
    (∀ (f : Fzx) (allocOk : Bool) (s : Bytes) (e : Exn),
      f.run allocOk (Call.pushItem s) = Except.error e ↔ f.mItems.push s allocOk = Except.error e) ∧
    (∀ (f : Fzx) (s : Bytes), f.run false (Call.pushItem s) = Except.error Exn.badAlloc) ∧
    (∀ (f : Fzx) (s : Bytes), ∃ g, f.run true (Call.pushItem s) = Except.ok (g, false)) := by
  refine ⟨fun _ _ _ => rfl, fun _ _ => rfl, fun _ _ => rfl, ?_, fun _ _ => rfl, fun f s => ⟨_, rfl⟩⟩
  intro f allocOk s e
  cases allocOk <;> simp [Fzx.run, Fzx.pushItem, ItemList.push]

/-! ## `redraw`: what it leaves alone -/

theorem redraw_small (ext : Ext) (app : TermApp)
    (h : app.mTTY.height < 4 ∨ app.mTTY.width < 4) : app.redraw ext = app := by
  unfold TermApp.redraw
  rw [if_pos]
  simpa using h

theorem redraw_cursor (ext : Ext) (app : TermApp)
    (h : 4 ≤ app.mTTY.height ∧ 4 ≤ app.mTTY.width) :
    (app.redraw ext).mCursor =
      clamp app.mCursor 0 ((app.mFzx.resultsSize + sizeMod - 1) % sizeMod) := by
  unfold TermApp.redraw
  rw [if_neg]
  simp only [Bool.or_eq_true, decide_eq_true_eq, not_or, not_lt]
  exact h

theorem redraw_mFzx (ext : Ext) (app : TermApp) : (app.redraw ext).mFzx = app.mFzx := by
  unfold TermApp.redraw
  split <;> rfl

theorem redraw_mSelection (ext : Ext) (app : TermApp) :
    (app.redraw ext).mSelection = app.mSelection := by
  unfold TermApp.redraw
  split <;> rfl

/-! ## Cursor and selection: theorems -/

/-- C8: on a terminal of height and width at least 4, `redraw` leaves the cursor at
`min(old cursor, resultsSize - 1)` when there are results, so that it indexes a result; with no
result the upper bound of the clamp wraps to `2^64 - 1` and the cursor is unchanged, and a
cursor of 1 does persist with no results after a `kCtrlP`. On a smaller terminal `redraw`
changes nothing at all. -/
theorem redraw_clamps_cursor (ext : Ext) (app : TermApp)
    (hc : app.mCursor < sizeMod) (hn : app.mFzx.resultsSize < sizeMod) :
    (4 ≤ app.mTTY.height ∧ 4 ≤ app.mTTY.width →
      (0 < app.mFzx.resultsSize →
        (app.redraw ext).mCursor = min app.mCursor (app.mFzx.resultsSize - 1) ∧
        (app.redraw ext).mCursor < app.mFzx.resultsSize) ∧
      (app.mFzx.resultsSize = 0 →
        (app.mFzx.resultsSize + sizeMod - 1) % sizeMod = 2 ^ 64 - 1 ∧
        (app.redraw ext).mCursor = app.mCursor)) ∧
    (app.mTTY.height < 4 ∨ app.mTTY.width < 4 → app.redraw ext = app) ∧
    ((TermApp.sample (Fzx.sample [] []) []).mFzx.resultsSize = 0 ∧
      ((TermApp.sample (Fzx.sample [] []) []).processTTY Ext.idle [Key.kCtrlP]).mCursor = 1) := by
  refine ⟨fun h => ⟨fun hpos => ?_, fun hzero => ?_⟩, redraw_small ext app, by decide, by decide⟩
  · rw [redraw_cursor ext app h]
    have e : (app.mFzx.resultsSize + sizeMod - 1) % sizeMod = app.mFzx.resultsSize - 1 := by
      have : app.mFzx.resultsSize + sizeMod - 1 = (app.mFzx.resultsSize - 1) + sizeMod := by omega
      rw [this, Nat.add_mod_right, Nat.mod_eq_of_lt (by omega)]
    rw [e]
    unfold clamp
    simp only [Nat.not_lt_zero, if_false]
    split
    · constructor
      · rw [Nat.min_eq_right (by omega)]
      · omega
    · constructor
      · rw [Nat.min_eq_left (by omega)]
      · omega
  · rw [redraw_cursor ext app h, hzero]
    have e : (0 + sizeMod - 1) % sizeMod = 2 ^ 64 - 1 := by decide
    refine ⟨e, ?_⟩
    rw [e]
    unfold clamp
    simp only [Nat.not_lt_zero, if_false]
    rw [if_neg]
    unfold sizeMod at hc
    omega

/-- Witness of C8 on the sample front end over three results with the cursor at 5. -/
theorem redraw_clamps_cursor_witness :
    ({ TermApp.sample (Fzx.sample [[97], [98], [99]] [⟨0, 0⟩, ⟨1, 0⟩, ⟨2, 0⟩]) [] with
        mCursor := 5 }.redraw Ext.idle).mCursor = 2 :=
  ((redraw_clamps_cursor Ext.idle
    { TermApp.sample (Fzx.sample [[97], [98], [99]] [⟨0, 0⟩, ⟨1, 0⟩, ⟨2, 0⟩]) [] with mCursor := 5 }
    (by decide) (by decide)).1 ⟨by decide, by decide⟩).1 (by decide) |>.1

theorem toggle_toggle (sel : Finset Nat) (index : Nat) : toggle (toggle sel index) index = sel := by
  unfold toggle
  by_cases h : index ∈ sel
  · simp [h, Finset.insert_erase]
  · simp [h, Finset.erase_insert]

theorem mem_toggle (sel : Finset Nat) (index j : Nat) :
    j ∈ toggle sel index ↔ (if j = index then j ∉ sel else j ∈ sel) := by
  unfold toggle
  by_cases h : index ∈ sel <;> by_cases e : j = index
  · subst e; simp [h]
  · simp [h, e]
  · subst e; simp [h]
  · simp [h, e]

/-- C9: a `kTab` that the line editor leaves to `processTTY`, with the cursor below
`resultsSize`, toggles the membership of the original index of the result under the cursor in
the selection, keeps the membership of every other index and advances the cursor by one; with
the cursor at or above `resultsSize` selection and cursor are unchanged. Toggling the same
index twice restores the selection. -/
theorem tab_toggles_selection (ext : Ext) (app : TermApp) (updateQuery : Bool)
    (hl : ext.lineHandle Key.kTab app.mLine = none) (hn : app.mFzx.resultsSize < sizeMod) :
    (app.mCursor < app.mFzx.resultsSize →
      ((app.mFzx.resultIndex app.mCursor ∈ (app.keyStep ext updateQuery Key.kTab).app.mSelection ↔
          app.mFzx.resultIndex app.mCursor ∉ app.mSelection) ∧
        (∀ j, j ≠ app.mFzx.resultIndex app.mCursor →
          (j ∈ (app.keyStep ext updateQuery Key.kTab).app.mSelection ↔ j ∈ app.mSelection)) ∧
        (app.keyStep ext updateQuery Key.kTab).app.mCursor = app.mCursor + 1)) ∧
    (¬ app.mCursor < app.mFzx.resultsSize →
      (app.keyStep ext updateQuery Key.kTab).app.mSelection = app.mSelection ∧
      (app.keyStep ext updateQuery Key.kTab).app.mCursor = app.mCursor) ∧
    (∀ (sel : Finset Nat) (index : Nat), toggle (toggle sel index) index = sel) := by
  have step : (app.keyStep ext updateQuery Key.kTab).app = app.tabKey := by
    unfold TermApp.keyStep
    rw [hl]
    simp
  rw [step]
  refine ⟨fun h => ?_, fun h => ?_, toggle_toggle⟩
  · unfold TermApp.tabKey
    rw [if_pos h]
    refine ⟨?_, fun j hj => ?_, ?_⟩
    · simp [mem_toggle]
    · simp [mem_toggle, hj]
    · exact Nat.mod_eq_of_lt (by omega)
  · unfold TermApp.tabKey
    rw [if_neg h]
    exact ⟨rfl, rfl⟩

/-- Witness of C9: a `kTab` on the first of two results selects index 0 and moves the cursor
to 1. -/
theorem tab_toggles_selection_witness :
    ((TermApp.sample Fzx.twins []).keyStep Ext.idle false Key.kTab).app.mCursor = 0 + 1 :=
  ((tab_toggles_selection Ext.idle (TermApp.sample Fzx.twins []) false rfl (by decide)).1
    (by decide)).2.2

/-! ## `redraw`: colours of the item bytes -/

theorem putc_mOut (t : TTY) (b : Byte) : (t.putc b).mOut = t.mOut ++ [Cell.putc b t.mFg t.mBg] := rfl

theorem pushItemCb_ok (item : Bytes) (w : Sink) (h : w.alloc.next.1 = true) :
    pushItemCb item w =
      ({ fzx := { w.fzx with mItems := { w.fzx.mItems with mItems := w.fzx.mItems.mItems ++ [item] } },
         alloc := w.alloc.next.2, trace := w.trace ++ [Effect.push item] }, none) := by
  simp [pushItemCb, Fzx.pushItem, ItemList.push, h]

theorem pushItemCb_fail (item : Bytes) (w : Sink) (h : w.alloc.next.1 = false) :
    pushItemCb item w = ({ w with alloc := w.alloc.next.2 }, some Exn.badAlloc) := by
  simp [pushItemCb, Fzx.pushItem, ItemList.push, h]

/-- The record of completed calls grows by one push per item that `feed` counts. -/
theorem feedFrom_trace :
    ∀ (chunk : Bytes) (sc : LineScanner) (w : Sink) (n : Nat),
      ∃ items : List Bytes,
        (LineScanner.feedFrom pushItemCb chunk sc w n).1.2.trace =
          w.trace ++ items.map Effect.push ∧
        ∀ c, (LineScanner.feedFrom pushItemCb chunk sc w n).2 = Except.ok c → c = n + items.length
  | [], sc, w, n => ⟨[], by simp [LineScanner.feedFrom], by
      intro c hc
      simp only [LineScanner.feedFrom, Except.ok.injEq] at hc
      simp [hc]⟩
  | b :: rest, sc, w, n => by
    by_cases hb : b = 10
    · cases ha : w.alloc.next.1
      · refine ⟨[], ?_, ?_⟩
        · simp [LineScanner.feedFrom, hb, pushItemCb_fail _ _ ha]
        · intro c hc
          simp [LineScanner.feedFrom, hb, pushItemCb_fail _ _ ha] at hc
      · obtain ⟨items, h1, h2⟩ := feedFrom_trace rest ⟨[]⟩ (pushItemCb (stripCR sc.mBuf) w).1 (n + 1)
        refine ⟨stripCR sc.mBuf :: items, ?_, ?_⟩
        · rw [pushItemCb_ok _ _ ha] at h1
          simp only [LineScanner.feedFrom, hb, if_true, pushItemCb_ok _ _ ha]
          rw [h1]
          simp
        · intro c hc
          rw [pushItemCb_ok _ _ ha] at h2
          simp only [LineScanner.feedFrom, hb, if_true, pushItemCb_ok _ _ ha] at hc
          rw [h2 c hc, List.length_cons]
          omega
    · obtain ⟨items, h1, h2⟩ := feedFrom_trace rest ⟨sc.mBuf ++ [b]⟩ w n
      refine ⟨items, ?_, ?_⟩
      · simp only [LineScanner.feedFrom, hb, if_false]
        exact h1
      · intro c hc
        simp only [LineScanner.feedFrom, hb, if_false] at hc
        exact h2 c hc

/-- When `finalize` completes, it pushed the buffered bytes exactly when it reports an item, and
it leaves the scanner empty. -/
theorem finalize_ok (sc : LineScanner) (w : Sink) (sc1 : LineScanner) (w1 : Sink) (emitted : Bool)
    (h : sc.finalize pushItemCb w = ((sc1, w1), Except.ok emitted)) :
    w1.trace = w.trace ++ (if emitted then [Effect.push sc.mBuf] else []) ∧
    (emitted = true ↔ sc.mBuf ≠ []) ∧ sc1.mBuf = [] := by
  unfold LineScanner.finalize at h
  by_cases hb : sc.mBuf = []
  · simp only [hb, if_true, Prod.mk.injEq, Except.ok.injEq] at h
    obtain ⟨⟨h1, h2⟩, h3⟩ := h
    subst h1 h2 h3
    simp [hb]
  · cases ha : w.alloc.next.1
    · simp [hb, pushItemCb_fail _ _ ha] at h
    · simp only [hb, if_false, pushItemCb_ok _ _ ha, Prod.mk.injEq, Except.ok.injEq] at h
      obtain ⟨⟨h1, h2⟩, h3⟩ := h
      subst h1 h2 h3
      simp [hb]

/-- The end of input branch when its `finalize` completes. -/
theorem endOfInput_of_finalize_ok (ext : Ext) (app : TermApp) (alloc : Alloc) (trace : List Effect)
    (sc : LineScanner) (w : Sink) (emitted : Bool)
    (h : app.mLineScanner.finalize pushItemCb ⟨app.mFzx, alloc, trace ++ [Effect.close]⟩ =
      ((sc, w), Except.ok emitted)) :
    app.endOfInput ext alloc trace =
      { app := TermApp.redraw ext
          { app with
            mInputOpen := false, mLineScanner := sc,
            mFzx := if emitted then w.fzx.commitItems else w.fzx, mInputBuffer := [] }
        alloc := w.alloc
        trace := (if emitted then w.trace ++ [Effect.commit] else w.trace) ++
          [Effect.clear, Effect.redraw]
        raised := none } := by
  unfold TermApp.endOfInput
  simp only [h]

/-- The end of input branch when its `finalize` raises. -/
theorem endOfInput_of_finalize_error (ext : Ext) (app : TermApp) (alloc : Alloc)
    (trace : List Effect) (sc : LineScanner) (w : Sink) (e : Exn)
    (h : app.mLineScanner.finalize pushItemCb ⟨app.mFzx, alloc, trace ++ [Effect.close]⟩ =
      ((sc, w), Except.error e)) :
    app.endOfInput ext alloc trace =
      { app := { app with mInputOpen := false, mLineScanner := sc, mFzx := w.fzx }
        alloc := w.alloc, trace := w.trace, raised := some e } := by
  unfold TermApp.endOfInput
  simp only [h]

/-- Calls completed by the end of input branch when it does not raise. -/
theorem endOfInput_trace (ext : Ext) (app : TermApp) (alloc : Alloc) (trace : List Effect)
    (h : (app.endOfInput ext alloc trace).raised = none) :
    ∃ emitted : Bool,
      (app.mLineScanner.finalize pushItemCb ⟨app.mFzx, alloc, trace ++ [Effect.close]⟩).2 =
        Except.ok emitted ∧
      (app.endOfInput ext alloc trace).trace =
        trace ++ (if emitted then
          [Effect.close, Effect.push app.mLineScanner.mBuf, Effect.commit, Effect.clear, Effect.redraw]
          else [Effect.close, Effect.clear, Effect.redraw]) := by
  rcases hfin : app.mLineScanner.finalize pushItemCb ⟨app.mFzx, alloc, trace ++ [Effect.close]⟩
    with ⟨⟨sc, w⟩, e | emitted⟩
  · rw [endOfInput_of_finalize_error ext app alloc trace sc w e hfin] at h
    simp at h
  · refine ⟨emitted, rfl, ?_⟩
    rw [endOfInput_of_finalize_ok ext app alloc trace sc w emitted hfin]
    obtain ⟨ht, _, _⟩ := finalize_ok _ _ _ _ _ hfin
    cases emitted <;> simp [ht]

/-- Calls completed by the data branch when it does not raise: one push per counted item, a
commit exactly when the count is positive, then at most a resize, and the redraw. -/
theorem dataRead_trace (ext : Ext) (app : TermApp) (len : Int) (alloc : Alloc)
    (h : (app.dataRead ext len alloc).raised = none) :
    ∃ (items : List Bytes) (tail : List Effect),
      (app.mLineScanner.feed (app.mInputBuffer.take len.toNat) pushItemCb ⟨app.mFzx, alloc, []⟩).2 =
        Except.ok items.length ∧
      (tail = [Effect.redraw] ∨ ∃ n, tail = [Effect.resize n, Effect.redraw]) ∧
      (app.dataRead ext len alloc).trace =
        items.map Effect.push ++ (if items.length > 0 then [Effect.commit] else []) ++ tail := by
  obtain ⟨items, ht, hcount⟩ := feedFrom_trace (app.mInputBuffer.take len.toNat) app.mLineScanner
    ⟨app.mFzx, alloc, []⟩ 0
  unfold TermApp.dataRead at h ⊢
  unfold LineScanner.feed at h ⊢
  rcases hfeed : LineScanner.feedFrom pushItemCb (app.mInputBuffer.take len.toNat) app.mLineScanner
      ⟨app.mFzx, alloc, []⟩ 0 with ⟨⟨sc, w⟩, e | count⟩
  · simp [hfeed] at h
  · rw [hfeed] at ht hcount
    have hc : count = items.length := by
      have := hcount count rfl
      omega
    simp only [List.nil_append] at ht
    subst hc
    simp only [hfeed] at h ⊢
    by_cases hcond : app.mInputBuffer.length = len.toNat ∧
        app.mInputBuffer.length < kMaxInputBufferSize
    · rw [if_pos hcond] at h ⊢
      cases ha : w.alloc.next.1
      · simp [ha] at h
      · refine ⟨items, [Effect.resize (app.mInputBuffer.length * 2), Effect.redraw], rfl,
          Or.inr ⟨_, rfl⟩, ?_⟩
        simp only [if_true]
        show (if items.length > 0 then w.trace ++ [Effect.commit] else w.trace) ++ _ = _
        rw [ht]
        split <;> simp
    · rw [if_neg hcond] at h ⊢
      refine ⟨items, [Effect.redraw], rfl, Or.inl rfl, ?_⟩
      show (if items.length > 0 then w.trace ++ [Effect.commit] else w.trace) ++ _ = _
      rw [ht]
      split <;> simp

/-! ## `processInput`: theorems on commit -/

/-- C4, as stated, fails on the paths through the handler. With the input `a\nb\n` and an
allocator that fails from the second allocation on, the item `a` is pushed and commit is never
invoked. With a one byte buffer filled by `x` and an allocator that fails once, `feed` returns
the count 0, the resize raises, and the handler commits the item flushed by `finalize`. -/
theorem commit_not_iff_emitted_on_raise :
    (0 < (ReadOutcome.data [97, 10, 98, 10]).len 4 ∧
      Effect.push [97] ∈ ((TermApp.sample (Fzx.sample [] []) [0, 0, 0, 0]).processInput Ext.idle
        (ReadOutcome.data [97, 10, 98, 10]) [true, false, false]).trace ∧
      Effect.commit ∉ ((TermApp.sample (Fzx.sample [] []) [0, 0, 0, 0]).processInput Ext.idle
        (ReadOutcome.data [97, 10, 98, 10]) [true, false, false]).trace) ∧
    (0 < (ReadOutcome.data [120]).len 1 ∧
      ((TermApp.sample (Fzx.sample [] []) [0]).mLineScanner.feed [120] pushItemCb
        ⟨(TermApp.sample (Fzx.sample [] []) [0]).mFzx, [false], []⟩).2.toOption = some 0 ∧
      ((TermApp.sample (Fzx.sample [] []) [0]).processInput Ext.idle
        (ReadOutcome.data [120]) [false]).trace =
        [Effect.close, Effect.push [120], Effect.commit, Effect.clear, Effect.redraw]) := by
  decide

/-- C4, amended: when no exception is raised inside the `try` block, commit is invoked if and
only if the line scanner emitted at least one item during the call: after a read of `len > 0`
bytes exactly when `feed` returns a count above 0, at end of input (`len = 0`) exactly when
`finalize` returns true; and when the read fails (`len = -1`) the only call made is `perror`
and the application is unchanged (no item pushed, no commit, input open, buffer unchanged, no
redraw). -/
theorem commit_iff_item_emitted (ext : Ext) (app : TermApp) (rd : ReadOutcome) (alloc : Alloc)
    (h : (app.tryBlock ext rd alloc).raised = none) :
    (Effect.commit ∈ (app.processInput ext rd alloc).trace ↔
      ∃ item, Effect.push item ∈ (app.processInput ext rd alloc).trace) ∧
    (0 < rd.len app.mInputBuffer.length →
      (Effect.commit ∈ (app.processInput ext rd alloc).trace ↔
        ∃ count, 0 < count ∧
          (app.mLineScanner.feed
            ((rd.store app.mInputBuffer).take (rd.len app.mInputBuffer.length).toNat) pushItemCb
            ⟨app.mFzx, alloc, []⟩).2 = Except.ok count)) ∧
    (rd.len app.mInputBuffer.length = 0 →
      (Effect.commit ∈ (app.processInput ext rd alloc).trace ↔
        (app.mLineScanner.finalize pushItemCb ⟨app.mFzx, alloc, [Effect.close]⟩).2 =
          Except.ok true)) ∧
    (rd.len app.mInputBuffer.length = -1 →
      (app.processInput ext rd alloc).trace = [Effect.perror] ∧
      (app.processInput ext rd alloc).app = app ∧
      (app.processInput ext rd alloc).raised = none) := by
  have hp : app.processInput ext rd alloc = app.tryBlock ext rd alloc := by
    unfold TermApp.processInput
    simp only [h]
  rw [hp]
  by_cases h1 : 0 < rd.len app.mInputBuffer.length
  · have ht : app.tryBlock ext rd alloc =
        TermApp.dataRead ext { app with mInputBuffer := rd.store app.mInputBuffer }
          (rd.len app.mInputBuffer.length) alloc := by
      unfold TermApp.tryBlock
      simp only [gt_iff_lt, h1, if_true]
    rw [ht] at h ⊢
    obtain ⟨items, tail, hfeed, htail, htrace⟩ := dataRead_trace ext _ _ alloc h
    rw [htrace]
    have hfeed2 : (app.mLineScanner.feed
        ((rd.store app.mInputBuffer).take (rd.len app.mInputBuffer.length).toNat) pushItemCb
        ⟨app.mFzx, alloc, []⟩).2 = Except.ok items.length := hfeed
    have key : Effect.commit ∈ items.map Effect.push ++
        (if items.length > 0 then [Effect.commit] else []) ++ tail ↔ 0 < items.length := by
      rcases htail with e | ⟨n, e⟩ <;> subst e <;> cases items <;> simp
    refine ⟨?_, fun _ => ?_, fun h0 => ?_, fun hm => ?_⟩
    · rw [key]
      rcases htail with e | ⟨n, e⟩ <;> subst e <;> cases items <;> simp
    · rw [key, hfeed2]
      constructor
      · intro hpos
        exact ⟨_, hpos, rfl⟩
      · rintro ⟨count, hpos, hc⟩
        simp only [Except.ok.injEq] at hc
        omega
    · omega
    · omega
  · by_cases h0 : rd.len app.mInputBuffer.length = 0
    · have ht : app.tryBlock ext rd alloc =
          TermApp.endOfInput ext { app with mInputBuffer := rd.store app.mInputBuffer } alloc [] := by
        unfold TermApp.tryBlock
        simp [h0]
      rw [ht] at h ⊢
      obtain ⟨emitted, hfin, htrace⟩ := endOfInput_trace ext _ alloc [] h
      rw [htrace]
      have hfin2 : (app.mLineScanner.finalize pushItemCb ⟨app.mFzx, alloc, [Effect.close]⟩).2 =
          Except.ok emitted := hfin
      refine ⟨?_, fun hpos => absurd hpos h1, fun _ => ?_, fun hm => ?_⟩
      · cases emitted <;> simp
      · rw [hfin2]
        cases emitted <;> simp
      · omega
    · by_cases hm : rd.len app.mInputBuffer.length = -1
      · have hs : rd.store app.mInputBuffer = app.mInputBuffer := by
          cases rd with
          | fail => rfl
          | data bytes =>
            simp only [ReadOutcome.len] at hm
            omega
        have ht : app.tryBlock ext rd alloc =
            { app := app, alloc := alloc, trace := [Effect.perror], raised := none } := by
          unfold TermApp.tryBlock
          simp [hm, hs]
        rw [ht]
        refine ⟨by simp, fun hpos => absurd hpos h1, fun hz => absurd hz h0, fun _ => ⟨rfl, rfl, rfl⟩⟩
      · have ht : (app.tryBlock ext rd alloc).trace = [] := by
          unfold TermApp.tryBlock
          simp only [gt_iff_lt, h1, h0, hm, if_false]
        rw [ht]
        refine ⟨by simp, fun hpos => absurd hpos h1, fun hz => absurd hz h0, fun hm2 => absurd hm2 hm⟩

/-- Witness of C4: the input `a\n` without any allocation failure; `feed` counts one item and
commit is invoked. -/
theorem commit_iff_item_emitted_witness :
    Effect.commit ∈ ((TermApp.sample (Fzx.sample [] []) [0, 0, 0, 0]).processInput Ext.idle
        (ReadOutcome.data [97, 10]) []).trace ↔
      ∃ item, Effect.push item ∈ ((TermApp.sample (Fzx.sample [] []) [0, 0, 0, 0]).processInput
        Ext.idle (ReadOutcome.data [97, 10]) []).trace :=
  (commit_iff_item_emitted Ext.idle (TermApp.sample (Fzx.sample [] []) [0, 0, 0, 0])
    (ReadOutcome.data [97, 10]) [] (by decide)).1

/-! ## `processInput`: theorems on the handler -/

end fzx
